import Mathlib

/-!
Verification of the color conversion core of `color_converter.py`
(`ColorConverter.rgb_to_cmyk`, `cmyk_to_rgb`, `rgb_to_hls`, `hls_to_rgb`)
and of the slider input handler `ColorSliderGroup.on_input_changed`.

The Python arithmetic is embedded over `ℚ`; Python's built-in `round`
(round-half-to-even) is `pyRound`, and Python's `%` on reals (result in
`[0, y)` for `y > 0`) is `qmod`.
-/

/-- Python's built-in `round` applied to an exact rational:
round to nearest integer, ties to even. -/
def pyRound (x : ℚ) : ℤ :=
  let f := ⌊x⌋
  if x - f < 1/2 then f
  else if 1/2 < x - f then f + 1
  else if f % 2 = 0 then f else f + 1

/-- Python's `%` on reals: `x % y = x - y * floor (x / y)`. -/
def qmod (x y : ℚ) : ℚ := x - y * ⌊x / y⌋

namespace ColorConverter

/-- `ColorConverter.rgb_to_cmyk` (color_converter.py lines 10-23). -/
def rgb_to_cmyk (r g b : ℤ) : ℤ × ℤ × ℤ × ℤ :=
  if r = 0 ∧ g = 0 ∧ b = 0 then (0, 0, 0, 100)
  else
    let r_norm : ℚ := (r : ℚ) / 255
    let g_norm : ℚ := (g : ℚ) / 255
    let b_norm : ℚ := (b : ℚ) / 255
    let k : ℚ := 1 - max r_norm (max g_norm b_norm)
    let c : ℚ := if 1 - k ≠ 0 then (1 - r_norm - k) / (1 - k) else 0
    let m : ℚ := if 1 - k ≠ 0 then (1 - g_norm - k) / (1 - k) else 0
    let y : ℚ := if 1 - k ≠ 0 then (1 - b_norm - k) / (1 - k) else 0
    (pyRound (c * 100), pyRound (m * 100), pyRound (y * 100), pyRound (k * 100))

/-- `ColorConverter.cmyk_to_rgb` (color_converter.py lines 26-40). -/
def cmyk_to_rgb (c m y k : ℤ) : ℤ × ℤ × ℤ :=
  let c_norm : ℚ := (c : ℚ) / 100
  let m_norm : ℚ := (m : ℚ) / 100
  let y_norm : ℚ := (y : ℚ) / 100
  let k_norm : ℚ := (k : ℚ) / 100
  let r : ℚ := 255 * (1 - c_norm) * (1 - k_norm)
  let g : ℚ := 255 * (1 - m_norm) * (1 - k_norm)
  let b : ℚ := 255 * (1 - y_norm) * (1 - k_norm)
  (max 0 (min 255 (pyRound r)), max 0 (min 255 (pyRound g)), max 0 (min 255 (pyRound b)))

/-- `ColorConverter.rgb_to_hls` (color_converter.py lines 43-67).
Note the return tuple of the source is `round(h % 360), round(s * 100),
round(l * 100)`: hue, then saturation, then lightness. -/
def rgb_to_hls (r g b : ℤ) : ℤ × ℤ × ℤ :=
  let r_norm : ℚ := (r : ℚ) / 255
  let g_norm : ℚ := (g : ℚ) / 255
  let b_norm : ℚ := (b : ℚ) / 255
  let cmax := max r_norm (max g_norm b_norm)
  let cmin := min r_norm (min g_norm b_norm)
  let delta := cmax - cmin
  let l := (cmax + cmin) / 2
  let h : ℚ :=
    if delta = 0 then 0
    else if cmax = r_norm then 60 * qmod ((g_norm - b_norm) / delta) 6
    else if cmax = g_norm then 60 * ((b_norm - r_norm) / delta + 2)
    else 60 * ((r_norm - g_norm) / delta + 4)
  let s : ℚ :=
    if delta = 0 then 0
    else if l ≠ 1/2 then delta / (1 - |2 * l - 1|) else 1
  (pyRound (qmod h 360), pyRound (s * 100), pyRound (l * 100))

/-- The nested helper `hue_to_rgb(p, q, t)` of `ColorConverter.hls_to_rgb`
(color_converter.py lines 78-84). -/
def hue_to_rgb (p q t0 : ℚ) : ℚ :=
  let t1 := if t0 < 0 then t0 + 1 else t0
  let t := if t1 > 1 then t1 - 1 else t1
  if t < 1/6 then p + (q - p) * 6 * t
  else if t < 1/2 then q
  else if t < 2/3 then p + (q - p) * (2/3 - t) * 6
  else p

/-- `ColorConverter.hls_to_rgb` (color_converter.py lines 70-97);
parameter order is `(h, l, s)` as in the source. -/
def hls_to_rgb (h l s : ℤ) : ℤ × ℤ × ℤ :=
  let h_norm : ℚ := (h : ℚ) / 360
  let s_norm : ℚ := (s : ℚ) / 100
  let l_norm : ℚ := (l : ℚ) / 100
  let rgb : ℚ × ℚ × ℚ :=
    if s_norm = 0 then (l_norm, l_norm, l_norm)
    else
      let q := if l_norm < 1/2 then l_norm * (1 + s_norm)
               else l_norm + s_norm - l_norm * s_norm
      let p := 2 * l_norm - q
      (hue_to_rgb p q (h_norm + 1/3), hue_to_rgb p q h_norm, hue_to_rgb p q (h_norm - 1/3))
  (max 0 (min 255 (pyRound (rgb.1 * 255))),
   max 0 (min 255 (pyRound (rgb.2.1 * 255))),
   max 0 (min 255 (pyRound (rgb.2.2 * 255))))

/-- The pre-rounding hue of `rgb_to_hls` (color_converter.py lines 44-65):
the value `h` just before the final `round(h % 360)`. -/
def hueRaw (r g b : ℤ) : ℚ :=
  let r_norm : ℚ := (r : ℚ) / 255
  let g_norm : ℚ := (g : ℚ) / 255
  let b_norm : ℚ := (b : ℚ) / 255
  let cmax := max r_norm (max g_norm b_norm)
  let cmin := min r_norm (min g_norm b_norm)
  let delta := cmax - cmin
  if delta = 0 then 0
  else if cmax = r_norm then 60 * qmod ((g_norm - b_norm) / delta) 6
  else if cmax = g_norm then 60 * ((b_norm - r_norm) / delta + 2)
  else 60 * ((r_norm - g_norm) / delta + 4)

/-- `cmyk_to_rgb(rgb_to_cmyk(r, g, b))`, composed on the tuple result. -/
def cmyk_roundtrip (r g b : ℤ) : ℤ × ℤ × ℤ :=
  let t := rgb_to_cmyk r g b
  cmyk_to_rgb t.1 t.2.1 t.2.2.1 t.2.2.2

/-- `hls_to_rgb(rgb_to_hls(r, g, b))`, composed positionally on the tuple
result. -/
def hls_roundtrip (r g b : ℤ) : ℤ × ℤ × ℤ :=
  let t := rgb_to_hls r g b
  hls_to_rgb t.1 t.2.1 t.2.2

/-- The quantity `k` computed by `rgb_to_cmyk` in its general branch
(color_converter.py line 18). -/
def kOf (r g b : ℤ) : ℚ :=
  1 - max ((r : ℚ) / 255) (max ((g : ℚ) / 255) ((b : ℚ) / 255))

/-- The rounded percentage `round(c * 100)` computed by `rgb_to_cmyk`
(color_converter.py lines 19 and 23) for a channel with normalized
value `x / 255`, as a function of the channel `x` and the maximum
channel `M`. -/
def cpctOf (x M : ℤ) : ℤ :=
  pyRound ((if 1 - (1 - (M : ℚ) / 255) ≠ 0 then
      (1 - (x : ℚ) / 255 - (1 - (M : ℚ) / 255)) / (1 - (1 - (M : ℚ) / 255))
    else 0) * 100)

/-- The rounded percentage `round(k * 100)` computed by `rgb_to_cmyk`
(color_converter.py lines 18 and 23), as a function of the maximum
channel `M`. -/
def kpctOf (M : ℤ) : ℤ := pyRound ((1 - (M : ℚ) / 255) * 100)

/-- One output channel of `cmyk_to_rgb` (color_converter.py lines 32-38):
`max(0, min(255, round(255 * (1 - c/100) * (1 - k/100))))`. -/
def chanBack (c k : ℤ) : ℤ :=
  max 0 (min 255 (pyRound (255 * (1 - (c : ℚ) / 100) * (1 - (k : ℚ) / 100))))

/-- One channel of `cmyk_to_rgb ∘ rgb_to_cmyk` in the non-black case, as a
function of the channel value `x` and the maximum channel `M`. -/
def cmykChan (x M : ℤ) : ℤ := chanBack (cpctOf x M) (kpctOf M)

end ColorConverter

/-- The state of a `ColorSliderGroup`: its range, its index, the slider's
current value and the text of its numeric input field. -/
structure SliderState where
  min_val : ℤ
  max_val : ℤ
  index : ℤ
  slider : ℤ
  input : String
deriving DecidableEq

namespace ColorSliderGroup

/-- `ColorSliderGroup.on_input_changed` (color_converter.py lines 140-151),
with integer parsing of the field text abstracted as `parseInt` (Python's
`int(...)`, `none` modelling a raised `ValueError`). Returns the new state
and the list of `valueChanged` emissions `(index, value)`. -/
def on_input_changed (parseInt : String → Option ℤ) (st : SliderState) :
    SliderState × List (ℤ × ℤ) :=
  match parseInt st.input with
  | some value =>
      let clamped_value := max st.min_val (min st.max_val value)
      if value ≠ clamped_value then
        ({ st with slider := clamped_value, input := toString clamped_value },
         [(st.index, clamped_value)])
      else
        (st, [(st.index, value)])
  | none => ({ st with input := toString st.slider }, [])

end ColorSliderGroup

/-! ### Basic properties of `pyRound` and `qmod` -/

lemma pyRound_le_add_half (x : ℚ) : (pyRound x : ℚ) ≤ x + 1/2 := by
  simp only [pyRound]
  have h1 : (⌊x⌋ : ℚ) ≤ x := Int.floor_le x
  have h2 : x < ⌊x⌋ + 1 := Int.lt_floor_add_one x
  split_ifs with ha hb hc <;> push_cast <;> linarith

lemma sub_half_le_pyRound (x : ℚ) : x - 1/2 ≤ (pyRound x : ℚ) := by
  simp only [pyRound]
  have h1 : (⌊x⌋ : ℚ) ≤ x := Int.floor_le x
  have h2 : x < ⌊x⌋ + 1 := Int.lt_floor_add_one x
  split_ifs with ha hb hc <;> push_cast <;> linarith

lemma pyRound_nonneg {x : ℚ} (h : 0 ≤ x) : 0 ≤ pyRound x := by
  have h1 := sub_half_le_pyRound x
  by_contra hneg
  push_neg at hneg
  have h2 : pyRound x ≤ -1 := by omega
  have h3 : (pyRound x : ℚ) ≤ -1 := by exact_mod_cast h2
  linarith

lemma pyRound_le_intCast {x : ℚ} {n : ℤ} (h : x ≤ (n : ℚ)) : pyRound x ≤ n := by
  have h1 := pyRound_le_add_half x
  have h2 : (pyRound x : ℚ) < ((n + 1 : ℤ) : ℚ) := by push_cast; linarith
  have h3 : pyRound x < n + 1 := by exact_mod_cast h2
  omega

lemma qmod_nonneg (x : ℚ) {y : ℚ} (hy : 0 < y) : 0 ≤ qmod x y := by
  unfold qmod
  have h := (le_div_iff₀ hy).mp (Int.floor_le (x / y))
  linarith

lemma qmod_lt (x : ℚ) {y : ℚ} (hy : 0 < y) : qmod x y < y := by
  unfold qmod
  have h := (div_lt_iff₀ hy).mp (Int.lt_floor_add_one (x / y))
  linarith

lemma pyRound_qmod_360 (z : ℚ) : 0 ≤ pyRound (qmod z 360) ∧ pyRound (qmod z 360) ≤ 360 := by
  constructor
  · exact pyRound_nonneg (qmod_nonneg z (by norm_num))
  · refine pyRound_le_intCast ?_
    have := qmod_lt z (y := 360) (by norm_num)
    push_cast
    linarith

/-! ### Reduction of the CMYK round trip to a per-channel bound -/

open ColorConverter

lemma intCast_max_div (a b : ℤ) :
    ((max a b : ℤ) : ℚ) / 255 = max ((a : ℚ) / 255) ((b : ℚ) / 255) := by
  rcases le_total a b with h | h
  · rw [max_eq_right h, max_eq_right (by gcongr)]
  · rw [max_eq_left h, max_eq_left (by gcongr)]

lemma rgb_to_cmyk_nonblack (r g b : ℤ) (h : ¬(r = 0 ∧ g = 0 ∧ b = 0)) :
    rgb_to_cmyk r g b = (cpctOf r (max r (max g b)), cpctOf g (max r (max g b)),
      cpctOf b (max r (max g b)), kpctOf (max r (max g b))) := by
  simp only [rgb_to_cmyk, cpctOf, kpctOf, if_neg h]
  rw [intCast_max_div r (max g b), intCast_max_div g b]

lemma cmyk_roundtrip_nonblack (r g b : ℤ) (h : ¬(r = 0 ∧ g = 0 ∧ b = 0)) :
    cmyk_roundtrip r g b = (cmykChan r (max r (max g b)), cmykChan g (max r (max g b)),
      cmykChan b (max r (max g b))) := by
  simp only [cmyk_roundtrip]
  rw [rgb_to_cmyk_nonblack r g b h]
  rfl

unseal Rat.mul Rat.inv Rat.add Rat.sub in
lemma cmyk_roundtrip_black : cmyk_roundtrip 0 0 0 = (0, 0, 0) := by decide

lemma pyRound_err (x : ℚ) : |(pyRound x : ℚ) - x| ≤ 1/2 := by
  rw [abs_le]
  constructor
  · linarith [sub_half_le_pyRound x]
  · linarith [pyRound_le_add_half x]

lemma cpctOf_eq (x M : ℤ) (hM : ((M : ℚ)) ≠ 0) :
    cpctOf x M = pyRound (100 * ((M : ℚ) - x) / M) := by
  have hcond : (1 : ℚ) - (1 - (M : ℚ) / 255) ≠ 0 := by
    have e0 : (1 : ℚ) - (1 - (M : ℚ) / 255) = (M : ℚ) / 255 := by ring
    rw [e0]
    exact div_ne_zero hM (by norm_num)
  rw [cpctOf, if_pos hcond]
  congr 1
  field_simp
  ring

lemma kpctOf_eq (M : ℤ) : kpctOf M = pyRound (100 * (255 - (M : ℚ)) / 255) := by
  rw [kpctOf]
  congr 1
  ring

lemma kpctOf_nonneg {M : ℤ} (h : M ≤ 255) : 0 ≤ kpctOf M := by
  rw [kpctOf_eq]
  apply pyRound_nonneg
  have hq : (M : ℚ) ≤ 255 := by exact_mod_cast h
  apply div_nonneg _ (by norm_num)
  linarith

lemma kpctOf_le_100 {M : ℤ} (h : 0 ≤ M) : kpctOf M ≤ 100 := by
  rw [kpctOf_eq]
  apply pyRound_le_intCast
  have hq : (0 : ℚ) ≤ (M : ℚ) := by exact_mod_cast h
  rw [div_le_iff₀ (by norm_num : (0:ℚ) < 255)]
  push_cast
  linarith

unseal Rat.mul Rat.inv Rat.add Rat.sub in
set_option maxHeartbeats 2000000 in
lemma kpct_err_big {M : ℤ} (h1 : 247 ≤ M) (h2 : M ≤ 255) :
    |((kpctOf M : ℤ) : ℚ) - 100 * (255 - (M : ℚ)) / 255| ≤ 22 / 51 := by
  interval_cases M <;> decide

lemma clamp_close {v x : ℤ} (hx0 : 0 ≤ x) (hx255 : x ≤ 255) :
    |max 0 (min 255 v) - x| ≤ |v - x| := by
  rcases le_total v 0 with h1 | h1
  · rw [min_eq_right (by omega : v ≤ 255), max_eq_left h1]
    rw [abs_of_nonpos (by omega), abs_of_nonpos (by omega)]
    omega
  · rcases le_total v 255 with h2 | h2
    · rw [min_eq_right h2, max_eq_right h1]
    · rw [min_eq_left h2, max_eq_right (by norm_num : (0:ℤ) ≤ 255)]
      rw [abs_of_nonneg (by omega), abs_of_nonneg (by omega)]
      omega

lemma bilinear_bound {ec K Ay ek d Kb : ℚ} (hec : |ec| ≤ 1/2) (hK0 : 0 ≤ K)
    (hKb : K ≤ Kb) (hAy0 : 0 ≤ Ay) (hAy1 : Ay ≤ 100) (hek : |ek| ≤ d)
    (hcrit : Kb/2 + 100*d ≤ 98) :
    |ec * K + Ay * ek| ≤ 98 := by
  have hd0 : 0 ≤ d := le_trans (abs_nonneg ek) hek
  rw [abs_le] at hec hek ⊢
  have p1 : (0:ℚ) ≤ (1/2 - ec) * K := mul_nonneg (by linarith) hK0
  have p2 : (0:ℚ) ≤ (1/2 + ec) * K := mul_nonneg (by linarith) hK0
  have p3 : (0:ℚ) ≤ (d - ek) * Ay := mul_nonneg (by linarith) hAy0
  have p4 : (0:ℚ) ≤ (d + ek) * Ay := mul_nonneg (by linarith) hAy0
  have p5 : (0:ℚ) ≤ (100 - Ay) * d := mul_nonneg (by linarith) hd0
  constructor
  · nlinarith [p2, p4, p5, hKb, hcrit]
  · nlinarith [p1, p3, p5, hKb, hcrit]

lemma cmykChan_close (x M : ℤ) (hx0 : 0 ≤ x) (hxM : x ≤ M) (hM1 : 1 ≤ M) (hM255 : M ≤ 255) :
    |cmykChan x M - x| ≤ 2 := by
  have hMQ : (0 : ℚ) < (M : ℚ) := by exact_mod_cast (by omega : (0:ℤ) < M)
  have hMne : (M : ℚ) ≠ 0 := ne_of_gt hMQ
  have hxQ0 : (0 : ℚ) ≤ (x : ℚ) := by exact_mod_cast hx0
  have hxQM : (x : ℚ) ≤ (M : ℚ) := by exact_mod_cast hxM
  have hMQ255 : (M : ℚ) ≤ 255 := by exact_mod_cast hM255
  set y : ℚ := 100 * ((M : ℚ) - x) / M with hy
  set kap : ℚ := 100 * (255 - (M : ℚ)) / 255 with hkap
  set c : ℤ := cpctOf x M with hcdef
  set k : ℤ := kpctOf M with hkdef
  have hc : c = pyRound y := by rw [hcdef, cpctOf_eq x M hMne]
  have hk : k = pyRound kap := by rw [hkdef, kpctOf_eq M]
  have hec : |(c : ℚ) - y| ≤ 1/2 := by rw [hc]; exact pyRound_err y
  have hek : |(k : ℚ) - kap| ≤ 1/2 := by rw [hk]; exact pyRound_err kap
  have hk0 : 0 ≤ k := by rw [hkdef]; exact kpctOf_nonneg hM255
  have hk100 : k ≤ 100 := by rw [hkdef]; exact kpctOf_le_100 (by omega)
  have hkQ0 : (0 : ℚ) ≤ (k : ℚ) := by exact_mod_cast hk0
  have hkQ100 : (k : ℚ) ≤ 100 := by exact_mod_cast hk100
  have hy0 : 0 ≤ y := by
    rw [hy]
    apply div_nonneg _ (le_of_lt hMQ)
    linarith
  have hy100 : y ≤ 100 := by
    rw [hy, div_le_iff₀ hMQ]
    linarith
  set V : ℚ := 255 * (1 - (c : ℚ) / 100) * (1 - (k : ℚ) / 100) with hV
  have hid : V - (x : ℚ) =
      -(255 * (((c : ℚ) - y) * (100 - (k : ℚ)) + (100 - y) * ((k : ℚ) - kap)) / 10000) := by
    rw [hV, hy, hkap]
    field_simp
    ring
  have hKge : (0 : ℚ) ≤ 100 - (k : ℚ) := by linarith
  have hbound : |((c : ℚ) - y) * (100 - (k : ℚ)) + (100 - y) * ((k : ℚ) - kap)| ≤ 98 := by
    by_cases hk4 : 4 ≤ k
    · have hK96 : 100 - (k : ℚ) ≤ 96 := by
        have h4 : (4 : ℚ) ≤ (k : ℚ) := by exact_mod_cast hk4
        linarith
      exact bilinear_bound hec hKge hK96 (by linarith) (by linarith) hek (by norm_num)
    · have hk3 : k ≤ 3 := by omega
      have hM247 : 247 ≤ M := by
        have h1 : kap ≤ (k : ℚ) + 1/2 := by
          rw [abs_le] at hek
          linarith [hek.1]
        have h3 : (k : ℚ) ≤ 3 := by exact_mod_cast hk3
        have h2 : kap ≤ 7/2 := by linarith
        rw [hkap, div_le_iff₀ (by norm_num : (0:ℚ) < 255)] at h2
        have h5 : (246 : ℚ) < (M : ℚ) := by linarith
        have h6 : (246 : ℤ) < M := by exact_mod_cast h5
        omega
      have hdel : |(k : ℚ) - kap| ≤ 22/51 := by
        rw [hkdef, hkap]
        exact kpct_err_big hM247 hM255
      have hK100 : 100 - (k : ℚ) ≤ 100 := by linarith
      exact bilinear_bound hec hKge hK100 (by linarith) (by linarith) hdel (by norm_num)
  have hmain : |V - (x : ℚ)| < 5/2 := by
    calc |V - (x : ℚ)|
        = |255 * (((c : ℚ) - y) * (100 - (k : ℚ)) + (100 - y) * ((k : ℚ) - kap)) / 10000| := by
          rw [hid, abs_neg]
      _ = 255 * |((c : ℚ) - y) * (100 - (k : ℚ)) + (100 - y) * ((k : ℚ) - kap)| / 10000 := by
          rw [abs_div, abs_mul]
          norm_num
      _ ≤ 255 * 98 / 10000 := by
          have := hbound
          linarith
      _ < 5/2 := by norm_num
  have hfin : |(pyRound V : ℚ) - (x : ℚ)| < 3 := by
    have h1 := pyRound_err V
    calc |(pyRound V : ℚ) - (x : ℚ)| ≤ |(pyRound V : ℚ) - V| + |V - (x : ℚ)| :=
          abs_sub_le _ _ _
      _ < 1/2 + 5/2 := by exact add_lt_add_of_le_of_lt h1 hmain
      _ = 3 := by norm_num
  have hint : |pyRound V - x| ≤ 2 := by
    rw [← Int.cast_sub, ← Int.cast_abs] at hfin
    have h2 : |pyRound V - x| < 3 := by exact_mod_cast hfin
    omega
  have hchan : cmykChan x M = max 0 (min 255 (pyRound V)) := by
    simp only [cmykChan]
    rw [← hcdef, ← hkdef]
    simp only [chanBack]
  rw [hchan]
  calc |max 0 (min 255 (pyRound V)) - x| ≤ |pyRound V - x| := clamp_close hx0 (by omega)
    _ ≤ 2 := hint

lemma cmyk_roundtrip_close (r g b : ℤ) (hr0 : 0 ≤ r) (hr1 : r ≤ 255) (hg0 : 0 ≤ g)
    (hg1 : g ≤ 255) (hb0 : 0 ≤ b) (hb1 : b ≤ 255) :
    |(cmyk_roundtrip r g b).1 - r| ≤ 2 ∧ |(cmyk_roundtrip r g b).2.1 - g| ≤ 2 ∧
      |(cmyk_roundtrip r g b).2.2 - b| ≤ 2 := by
  by_cases hblack : r = 0 ∧ g = 0 ∧ b = 0
  · obtain ⟨h1, h2, h3⟩ := hblack
    subst h1; subst h2; subst h3
    rw [cmyk_roundtrip_black]
    norm_num
  · rw [cmyk_roundtrip_nonblack r g b hblack]
    have hrM : r ≤ max r (max g b) := le_max_left _ _
    have hgM : g ≤ max r (max g b) := le_trans (le_max_left _ _) (le_max_right _ _)
    have hbM : b ≤ max r (max g b) := le_trans (le_max_right _ _) (le_max_right _ _)
    have hM1 : 1 ≤ max r (max g b) := by
      by_contra hc
      push_neg at hc
      exact hblack ⟨by omega, by omega, by omega⟩
    have hM255 : max r (max g b) ≤ 255 := max_le hr1 (max_le hg1 hb1)
    have key : ∀ x : ℤ, 0 ≤ x → x ≤ max r (max g b) → |cmykChan x (max r (max g b)) - x| ≤ 2 :=
      fun x hx0 hxM => cmykChan_close x (max r (max g b)) hx0 hxM hM1 hM255
    exact ⟨key r hr0 hrM, key g hg0 hgM, key b hb0 hbM⟩

/-! ### Component lemmas for the HLS functions -/

lemma rgb_to_hls_fst (r g b : ℤ) : (rgb_to_hls r g b).1 = pyRound (qmod (hueRaw r g b) 360) := rfl

lemma hls_to_rgb_sat_zero (h l : ℤ) :
    hls_to_rgb h l 0 =
      (max 0 (min 255 (pyRound ((l : ℚ) / 100 * 255))),
       max 0 (min 255 (pyRound ((l : ℚ) / 100 * 255))),
       max 0 (min 255 (pyRound ((l : ℚ) / 100 * 255)))) := by
  simp only [hls_to_rgb]
  norm_num

lemma sat_zero_clamp {l : ℤ} (h0 : 0 ≤ l) (h1 : l ≤ 100) :
    max 0 (min 255 (pyRound ((l : ℚ) / 100 * 255))) = pyRound ((l : ℚ) / 100 * 255) := by
  have hlQ0 : (0 : ℚ) ≤ (l : ℚ) := by exact_mod_cast h0
  have hlQ1 : (l : ℚ) ≤ 100 := by exact_mod_cast h1
  have hz0 : (0 : ℚ) ≤ (l : ℚ) / 100 * 255 := by positivity
  have hz1 : (l : ℚ) / 100 * 255 ≤ ((255 : ℤ) : ℚ) := by
    push_cast
    rw [div_mul_eq_mul_div, div_le_iff₀ (by norm_num : (0:ℚ) < 100)]
    linarith
  have r0 : 0 ≤ pyRound ((l : ℚ) / 100 * 255) := pyRound_nonneg hz0
  have r1 : pyRound ((l : ℚ) / 100 * 255) ≤ 255 := pyRound_le_intCast hz1
  rw [min_eq_right r1, max_eq_right r0]

/-! ### The claims -/

/-- C7: `rgb_to_cmyk(0,0,0)` returns `(0,0,0,100)` exactly (the all-black
special case that avoids division by zero when K = 1). -/
theorem c7_black_exact : rgb_to_cmyk 0 0 0 = (0, 0, 0, 100) := by decide

unseal Rat.mul Rat.inv Rat.add Rat.sub in
/-- C6: `rgb_to_hls(255,0,0)` returns the tuple `(0, 100, 50)` exactly. -/
theorem c6_pure_red : rgb_to_hls 255 0 0 = (0, 100, 50) := by decide

unseal Rat.mul Rat.inv Rat.add Rat.sub in
/-- C5 (code evaluation): on the gray triple `(255,255,255)` the code returns
`(0, 0, 100)` — hue, saturation, lightness in that order — while the declared
`(h, l, s)` interface order would require `(0, 100, 0)`. -/
theorem c5_gray_swapped : rgb_to_hls 255 255 255 = (0, 0, 100) := by decide

unseal Rat.mul Rat.inv Rat.add Rat.sub in
/-- C3 (code evaluation): feeding the tuple returned by `rgb_to_hls(255,0,0)`
positionally into `hls_to_rgb` yields `(255,255,255)`, not within ±1 of
`(255,0,0)`: the saturation and lightness components are swapped. -/
theorem c3_positional_roundtrip : hls_roundtrip 255 0 0 = (255, 255, 255) := by decide

unseal Rat.mul Rat.inv Rat.add Rat.sub in
/-- C2 counterexample: at the valid input `(255,0,1)` the hue returned by
`rgb_to_hls` is exactly 360, refuting `H < 360`. -/
theorem c2_counterexample : ¬ ((rgb_to_hls 255 0 1).1 < 360) := by decide

/-- C2 (amended): for every integer RGB triple with components in `[0,255]`,
the H component returned by `rgb_to_hls` satisfies `0 ≤ H ≤ 360` (the value
360 itself is attained, e.g. at `(255,0,1)`). -/
theorem c2_hue_range (r g b : ℤ) (hr0 : 0 ≤ r) (hr1 : r ≤ 255) (hg0 : 0 ≤ g)
    (hg1 : g ≤ 255) (hb0 : 0 ≤ b) (hb1 : b ≤ 255) :
    0 ≤ (rgb_to_hls r g b).1 ∧ (rgb_to_hls r g b).1 ≤ 360 := by
  rw [rgb_to_hls_fst]
  exact pyRound_qmod_360 _

/-- C2 witness: the amended hue-range theorem applied at `(12, 34, 56)`. -/
theorem c2_hue_range_witness :
    0 ≤ (rgb_to_hls 12 34 56).1 ∧ (rgb_to_hls 12 34 56).1 ≤ 360 :=
  c2_hue_range 12 34 56 (by decide) (by decide) (by decide) (by decide) (by decide) (by decide)

unseal Rat.mul Rat.inv Rat.add Rat.sub in
/-- C1 counterexample: at `(64, 65, 0)` neither exact round-trip equality
holds (the CMYK round trip returns `(62, 64, 0)`). -/
theorem c1_counterexample :
    ¬ (cmyk_roundtrip 64 65 0 = (64, 65, 0) ∧ hls_roundtrip 64 65 0 = (64, 65, 0)) := by
  decide

/-- C1 (amended): for every RGB triple with integer components in `[0,255]`,
`cmyk_to_rgb(rgb_to_cmyk(r,g,b))` agrees with `(r,g,b)` within ±2 per
channel; the exact equalities fail, and the HLS round trip fails outright
because `rgb_to_hls` returns `(h,s,l)` while `hls_to_rgb` expects `(h,l,s)`. -/
theorem c1_cmyk_roundtrip_within_two (r g b : ℤ) (hr0 : 0 ≤ r) (hr1 : r ≤ 255)
    (hg0 : 0 ≤ g) (hg1 : g ≤ 255) (hb0 : 0 ≤ b) (hb1 : b ≤ 255) :
    |(cmyk_roundtrip r g b).1 - r| ≤ 2 ∧ |(cmyk_roundtrip r g b).2.1 - g| ≤ 2 ∧
      |(cmyk_roundtrip r g b).2.2 - b| ≤ 2 :=
  cmyk_roundtrip_close r g b hr0 hr1 hg0 hg1 hb0 hb1

/-- C1 witness: the amended CMYK round-trip bound applied at `(5, 200, 17)`. -/
theorem c1_cmyk_roundtrip_within_two_witness :
    |(cmyk_roundtrip 5 200 17).1 - 5| ≤ 2 ∧ |(cmyk_roundtrip 5 200 17).2.1 - 200| ≤ 2 ∧
      |(cmyk_roundtrip 5 200 17).2.2 - 17| ≤ 2 :=
  c1_cmyk_roundtrip_within_two 5 200 17 (by decide) (by decide) (by decide) (by decide)
    (by decide) (by decide)

unseal Rat.mul Rat.inv Rat.add Rat.sub in
/-- C4 counterexample: at `(64, 65, 0)` the CMYK round trip returns
`(62, 64, 0)`, so the first channel is off by 2 and the claimed ±1 bound
fails. -/
theorem c4_counterexample :
    ¬ (|(cmyk_roundtrip 64 65 0).1 - 64| ≤ 1 ∧ |(cmyk_roundtrip 64 65 0).2.1 - 65| ≤ 1 ∧
      |(cmyk_roundtrip 64 65 0).2.2 - 0| ≤ 1) := by
  decide

/-- C4 (amended): for every RGB triple with integer components in `[0,255]`,
`cmyk_to_rgb(rgb_to_cmyk(r,g,b))` equals `(r,g,b)` within ±2 (not ±1) per
channel. -/
theorem c4_cmyk_roundtrip_tolerance (r g b : ℤ) (hr0 : 0 ≤ r) (hr1 : r ≤ 255)
    (hg0 : 0 ≤ g) (hg1 : g ≤ 255) (hb0 : 0 ≤ b) (hb1 : b ≤ 255) :
    |(cmyk_roundtrip r g b).1 - r| ≤ 2 ∧ |(cmyk_roundtrip r g b).2.1 - g| ≤ 2 ∧
      |(cmyk_roundtrip r g b).2.2 - b| ≤ 2 :=
  cmyk_roundtrip_close r g b hr0 hr1 hg0 hg1 hb0 hb1

/-- C4 witness: the ±2 round-trip bound applied at `(10, 128, 255)`. -/
theorem c4_cmyk_roundtrip_tolerance_witness :
    |(cmyk_roundtrip 10 128 255).1 - 10| ≤ 2 ∧ |(cmyk_roundtrip 10 128 255).2.1 - 128| ≤ 2 ∧
      |(cmyk_roundtrip 10 128 255).2.2 - 255| ≤ 2 :=
  c4_cmyk_roundtrip_tolerance 10 128 255 (by decide) (by decide) (by decide) (by decide)
    (by decide) (by decide)

/-- C8: for every integer `h` in `[0,360)` and `l` in `[0,100]`,
`hls_to_rgb(h, l, 0)` returns `R = G = B = round(l/100*255)`, independent
of `h`. -/
theorem c8_achromatic (h l : ℤ) (hh0 : 0 ≤ h) (hh1 : h < 360) (hl0 : 0 ≤ l) (hl1 : l ≤ 100) :
    hls_to_rgb h l 0 =
      (pyRound ((l : ℚ) / 100 * 255), pyRound ((l : ℚ) / 100 * 255),
       pyRound ((l : ℚ) / 100 * 255)) := by
  rw [hls_to_rgb_sat_zero, sat_zero_clamp hl0 hl1]

unseal Rat.mul Rat.inv Rat.add Rat.sub in
/-- C8 witness: `hls_to_rgb(123, 37, 0) = (94, 94, 94)` via the achromatic
theorem. -/
theorem c8_achromatic_witness : hls_to_rgb 123 37 0 = (94, 94, 94) := by
  rw [c8_achromatic 123 37 (by decide) (by decide) (by decide) (by decide)]
  decide

/-- C10: for every RGB triple with integer components in `[0,255]` other than
`(0,0,0)`, the divisor `1 - k` in `rgb_to_cmyk` is strictly positive, and
`rgb_to_cmyk` computes every channel by the division formula — the
zero-divisor fallback that would return 0 is never taken. -/
theorem c10_divisor_positive (r g b : ℤ) (hr0 : 0 ≤ r) (hr1 : r ≤ 255) (hg0 : 0 ≤ g)
    (hg1 : g ≤ 255) (hb0 : 0 ≤ b) (hb1 : b ≤ 255) (hnz : ¬(r = 0 ∧ g = 0 ∧ b = 0)) :
    0 < 1 - kOf r g b ∧
      rgb_to_cmyk r g b =
        (pyRound ((1 - (r : ℚ) / 255 - kOf r g b) / (1 - kOf r g b) * 100),
         pyRound ((1 - (g : ℚ) / 255 - kOf r g b) / (1 - kOf r g b) * 100),
         pyRound ((1 - (b : ℚ) / 255 - kOf r g b) / (1 - kOf r g b) * 100),
         pyRound (kOf r g b * 100)) := by
  have hM1 : 1 ≤ max r (max g b) := by
    by_contra hc
    push_neg at hc
    have h1 : r ≤ max r (max g b) := le_max_left _ _
    have h2 : g ≤ max r (max g b) := le_trans (le_max_left _ _) (le_max_right _ _)
    have h3 : b ≤ max r (max g b) := le_trans (le_max_right _ _) (le_max_right _ _)
    exact hnz ⟨by omega, by omega, by omega⟩
  have hk : kOf r g b = 1 - ((max r (max g b) : ℤ) : ℚ) / 255 := by
    simp only [kOf]
    rw [intCast_max_div r (max g b), intCast_max_div g b]
  have hpos : 0 < 1 - kOf r g b := by
    rw [hk]
    have h1 : (1 : ℚ) ≤ ((max r (max g b) : ℤ) : ℚ) := by exact_mod_cast hM1
    have h2 : (0 : ℚ) < ((max r (max g b) : ℤ) : ℚ) / 255 := div_pos (by linarith) (by norm_num)
    linarith
  refine ⟨hpos, ?_⟩
  have hne : 1 - (1 - ((max r (max g b) : ℤ) : ℚ) / 255) ≠ 0 := by
    rw [← hk]
    exact ne_of_gt hpos
  rw [rgb_to_cmyk_nonblack r g b hnz]
  simp only [cpctOf, kpctOf, if_pos hne, hk]

/-- C10 witness: the divisor positivity and the division form of
`rgb_to_cmyk` at `(10, 20, 30)`. -/
theorem c10_divisor_positive_witness :
    0 < 1 - kOf 10 20 30 ∧
      rgb_to_cmyk 10 20 30 =
        (pyRound ((1 - ((10 : ℤ) : ℚ) / 255 - kOf 10 20 30) / (1 - kOf 10 20 30) * 100),
         pyRound ((1 - ((20 : ℤ) : ℚ) / 255 - kOf 10 20 30) / (1 - kOf 10 20 30) * 100),
         pyRound ((1 - ((30 : ℤ) : ℚ) / 255 - kOf 10 20 30) / (1 - kOf 10 20 30) * 100),
         pyRound (kOf 10 20 30 * 100)) :=
  c10_divisor_positive 10 20 30 (by decide) (by decide) (by decide) (by decide) (by decide)
    (by decide) (by decide)

/-- C9: when the text of a slider's numeric input field fails to parse as an
integer, `on_input_changed` reverts the field to the slider's current value
and emits no `valueChanged` notification. -/
theorem c9_parse_failure_reverts (parseInt : String → Option ℤ) (st : SliderState)
    (h : parseInt st.input = none) :
    ColorSliderGroup.on_input_changed parseInt st = ({ st with input := toString st.slider }, []) := by
  simp only [ColorSliderGroup.on_input_changed, h]

/-- C9 witness: a field text that parses to nothing is reverted to the
slider value 42 with no emission. -/
theorem c9_parse_failure_reverts_witness :
    ColorSliderGroup.on_input_changed (fun _ => none) ⟨0, 255, 1, 42, "abc"⟩ =
      (⟨0, 255, 1, 42, "42"⟩, []) := by
  rw [c9_parse_failure_reverts (fun _ => none) ⟨0, 255, 1, 42, "abc"⟩ rfl]
  decide
